import Mathlib

/-!
Verification development for the evaluation engine of check_tsd.py
(zorkian/nagios-plugins): the linear interpolator, the bucket resolver,
the bucket comparison and the recent-window evaluator.

Timestamps are modelled as integers (seconds since the epoch) and sample
values as rationals.  Fallible paths (sys.exit on missing data, the
unsupported non-rate bucket mode, division by a zero-valued older
bucket) are modelled with Except.
-/

namespace CheckTsd

/-- A data point as produced by get_datapoints: a (timestamp, value) pair. -/
abbrev DataPoint := ℤ × ℚ

/-- The comparison methods accepted by the -x option of check_tsd.py. -/
inductive Cmpr
  | gt | ge | lt | le | eq | ne
deriving DecidableEq

/-- Application of the chosen comparator, mirroring
comparator = operator.__dict__[options.comparator] in main. -/
def Cmpr.apply : Cmpr → ℚ → ℚ → Bool
  | .gt, a, b => decide (b < a)
  | .ge, a, b => decide (b ≤ a)
  | .lt, a, b => decide (a < b)
  | .le, a, b => decide (a ≤ b)
  | .eq, a, b => decide (a = b)
  | .ne, a, b => decide (a ≠ b)

/-- Translation of linear_fit(dps, dpe, ts): if the end value is below the
start value a counter reset is assumed and 0 is returned, otherwise the
value is linearly interpolated at ts. -/
def linear_fit (dps dpe : DataPoint) (ts : ℤ) : ℚ :=
  if dpe.2 < dps.2 then 0
  else dps.2 + ((dpe.2 - dps.2) / ((dpe.1 : ℚ) - (dps.1 : ℚ))) * ((ts : ℚ) - (dps.1 : ℚ))

/-- Start of the bucket computed in get_bucket:
end = now - (now % bs); start = (end - bs) - (which * bs). -/
def bucketStart (bs which now : ℤ) : ℤ :=
  ((now - now % bs) - bs) - which * bs

/-- End of the bucket computed in get_bucket: end = start + bs - 1. -/
def bucketEnd (bs which now : ℤ) : ℤ :=
  bucketStart bs which now + bs - 1

/-- State carried by the sample scan of get_bucket: the four bracketing
data points dp[0]..dp[3] and the highest value seen so far. -/
structure BStat where
  dp0 : Option DataPoint
  dp1 : Option DataPoint
  dp2 : Option DataPoint
  dp3 : Option DataPoint
  highest : Option ℚ
deriving DecidableEq

/-- Initial scan state: dp = [None, None, None, None], highest_val = None. -/
def BStat.init : BStat := ⟨none, none, none, none, none⟩

/-- Retain the data point with the larger timestamp (ties keep the
incumbent), mirroring the dp[0]/dp[2] updates of get_bucket. -/
def keepLatest (cur : Option DataPoint) (p : DataPoint) : Option DataPoint :=
  match cur with
  | none => some p
  | some d => if p.1 > d.1 then some p else some d

/-- Retain the data point with the smaller timestamp (ties keep the
incumbent), mirroring the dp[1]/dp[3] updates of get_bucket. -/
def keepEarliest (cur : Option DataPoint) (p : DataPoint) : Option DataPoint :=
  match cur with
  | none => some p
  | some d => if p.1 < d.1 then some p else some d

/-- Retain the higher value, mirroring the highest_val update of get_bucket. -/
def keepHighest (cur : Option ℚ) (v : ℚ) : Option ℚ :=
  match cur with
  | none => some v
  | some h => if v > h then some v else some h

/-- Conditional update of one scan slot: only samples in the slot's time
region are considered. -/
def updIn (C : DataPoint → Bool) (keep : Option DataPoint → DataPoint → Option DataPoint)
    (cur : Option DataPoint) (p : DataPoint) : Option DataPoint :=
  if C p then keep cur p else cur

/-- Region of dp[0]: ts < start. -/
def beforeStart (s : ℤ) (q : DataPoint) : Bool := decide (q.1 < s)

/-- Region of dp[3]: the elif branch, not (ts < start) and ts > end. -/
def afterEnd (s e : ℤ) (q : DataPoint) : Bool := decide (¬ q.1 < s ∧ e < q.1)

/-- Region of dp[1] and dp[2]: the else branch, start ≤ ts ≤ end. -/
def insideBucket (s e : ℤ) (q : DataPoint) : Bool := decide (¬ q.1 < s ∧ ¬ e < q.1)

/-- One iteration of the sample loop of get_bucket, written slot-wise:
dp[0] keeps the latest sample before start, dp[1] the earliest interior
sample, dp[2] the latest interior sample, dp[3] the earliest sample after
end, and highest_val the maximum value of all samples. -/
def scanStep (s e : ℤ) (st : BStat) (p : DataPoint) : BStat :=
  { dp0 := updIn (beforeStart s) keepLatest st.dp0 p
    dp1 := updIn (insideBucket s e) keepEarliest st.dp1 p
    dp2 := updIn (insideBucket s e) keepLatest st.dp2 p
    dp3 := updIn (afterEnd s e) keepEarliest st.dp3 p
    highest := keepHighest st.highest p.2 }

/-- Whole sample scan of get_bucket over the supplied data points. -/
def scanPoints (s e : ℤ) (l : List DataPoint) : BStat :=
  l.foldl (scanStep s e) BStat.init

/-- Failure modes of the evaluation engine. -/
inductive TsdError
  | InsufficientData
  | UnsupportedMode
  | DivisionUndefined
deriving DecidableEq

/-- Translation of get_bucket(options, metric, which): frame the bucket,
interpolate its endpoint values and return the rate-of-change value; exit
paths become errors. -/
def get_bucket (rate : Bool) (bs which now : ℤ) (dps : List DataPoint) :
    Except TsdError ℚ :=
  let s := bucketStart bs which now
  let e := bucketEnd bs which now
  let st := scanPoints s e dps
  match st.dp0, st.dp1, st.dp2, st.dp3 with
  | some d0, some d1, some d2, some d3 =>
      let start_val := linear_fit d0 d1 s
      let end_val := linear_fit d2 d3 e
      if rate then
        if end_val < start_val then .ok ((st.highest.getD 0 - start_val) + end_val)
        else .ok (end_val - start_val)
      else .error .UnsupportedMode
  | _, _, _, _ => .error .InsufficientData

/-- Three-level outcome of a check; the CLI layer maps it to the exit
codes 0, 1 and 2 returned by recent_check and bucket_check. -/
inductive Verdict
  | ok
  | warning
  | critical
deriving DecidableEq

/-- Translation of the no_data_point helper of recent_check. -/
def noData (noResultOk : Bool) : Verdict :=
  if noResultOk then .ok else .critical

/-- Configuration consumed by recent_check, after main has normalised it
(percent_over already divided by 100, missing threshold mirrored). -/
structure RecentOpts where
  duration : ℤ
  ignoreRecent : ℤ
  percentOver : ℚ
  warning : ℚ
  critical : ℚ
  cmp : Cmpr
  noResultOk : Bool

/-- Filter of the sample loop of recent_check: with delta = now - ts, a
sample is kept unless delta > duration or delta ≤ ignore_recent. -/
def keepSample (now dur ign : ℤ) (p : DataPoint) : Bool :=
  !(decide (now - p.1 > dur) || decide (now - p.1 ≤ ign))

/-- Update of the newest tracker of recent_check: the surviving sample of
strictly smaller age (delta) replaces the incumbent, stored as (age, value). -/
def updNewest (now : ℤ) (cur : Option (ℤ × ℚ)) (p : DataPoint) : Option (ℤ × ℚ) :=
  match cur with
  | none => some (now - p.1, p.2)
  | some d => if now - p.1 < d.1 then some (now - p.1, p.2) else some d

/-- Update of the oldest tracker of recent_check: the surviving sample of
strictly larger age (delta) replaces the incumbent, stored as (age, value). -/
def updOldest (now : ℤ) (cur : Option (ℤ × ℚ)) (p : DataPoint) : Option (ℤ × ℚ) :=
  match cur with
  | none => some (now - p.1, p.2)
  | some d => if now - p.1 > d.1 then some (now - p.1, p.2) else some d

/-- Translation of recent_check(options, comparator), with the already
fetched data points and the current time as arguments.  Exit codes 0, 1, 2
are rendered as the Verdict levels. -/
def recent_check (o : RecentOpts) (deltaMode : Bool) (now : ℤ)
    (dps : List DataPoint) : Verdict :=
  let surv := dps.filter (keepSample now o.duration o.ignoreRecent)
  let npoints := surv.length
  if npoints = 0 then noData o.noResultOk
  else if deltaMode then
    match surv.foldl (updNewest now) none, surv.foldl (updOldest now) none with
    | some nw, some od =>
        let d := nw.2 - od.2
        if o.cmp.apply d o.critical then .critical
        else if o.cmp.apply d o.warning then .warning
        else .ok
    | _, _ => noData o.noResultOk
  else
    let ncrit := (surv.filter (fun p => o.cmp.apply p.2 o.critical)).length
    let nwarn :=
      (surv.filter (fun p => !(o.cmp.apply p.2 o.critical) && o.cmp.apply p.2 o.warning)).length
        + ncrit
    if 0 < ncrit ∧ o.percentOver < (ncrit : ℚ) / (npoints : ℚ) then .critical
    else if 0 < nwarn ∧ o.percentOver < (nwarn : ℚ) / (npoints : ℚ) then .warning
    else .ok

/-- Numeric delta reported by the delta branch of recent_check:
newest value minus oldest value among the surviving samples. -/
def delta_value (o : RecentOpts) (now : ℤ) (dps : List DataPoint) : Option ℚ :=
  let surv := dps.filter (keepSample now o.duration o.ignoreRecent)
  match surv.foldl (updNewest now) none, surv.foldl (updOldest now) none with
  | some nw, some od => some (nw.2 - od.2)
  | _, _ => none

/-- Percent change computed by bucket_check:
change = ((float(b_now) / b_old) - 1) * 100, where the division raises on
a zero-valued older bucket. -/
def bucketPercentChange (bNow bOld : ℚ) : Except TsdError ℚ :=
  if bOld = 0 then .error .DivisionUndefined
  else .ok ((bNow / bOld - 1) * 100)

/-- Translation of the comparison tail of bucket_check(options, comparator),
taking the two resolved bucket values as arguments. -/
def bucket_check (cmp : Cmpr) (warning critical : ℚ) (useAbs : Bool)
    (bNow bOld : ℚ) : Except TsdError Verdict := do
  let change ← bucketPercentChange bNow bOld
  let cchange := if useAbs then |change| else change
  if cmp.apply cchange critical then return .critical
  else if cmp.apply cchange warning then return .warning
  else return .ok

/-! Helper lemmas about the scan folds. -/

theorem keepLatest_ne_none (cur : Option DataPoint) (p : DataPoint) :
    keepLatest cur p ≠ none := by
  cases cur with
  | none => simp [keepLatest]
  | some d =>
    simp only [keepLatest]
    split <;> simp

theorem keepEarliest_ne_none (cur : Option DataPoint) (p : DataPoint) :
    keepEarliest cur p ≠ none := by
  cases cur with
  | none => simp [keepEarliest]
  | some d =>
    simp only [keepEarliest]
    split <;> simp

theorem keepLatest_cases (cur : Option DataPoint) (p d : DataPoint)
    (h : keepLatest cur p = some d) : d = p ∨ cur = some d := by
  cases cur with
  | none => simp [keepLatest] at h; exact Or.inl h.symm
  | some q =>
    simp only [keepLatest] at h
    split at h
    · exact Or.inl (Option.some.inj h).symm
    · exact Or.inr h

theorem keepEarliest_cases (cur : Option DataPoint) (p d : DataPoint)
    (h : keepEarliest cur p = some d) : d = p ∨ cur = some d := by
  cases cur with
  | none => simp [keepEarliest] at h; exact Or.inl h.symm
  | some q =>
    simp only [keepEarliest] at h
    split at h
    · exact Or.inl (Option.some.inj h).symm
    · exact Or.inr h

theorem updIn_foldl_none (C : DataPoint → Bool)
    (keep : Option DataPoint → DataPoint → Option DataPoint)
    (hkeep : ∀ cur p, keep cur p ≠ none) (l : List DataPoint) :
    ∀ cur : Option DataPoint,
      l.foldl (updIn C keep) cur = none ↔ cur = none ∧ ∀ p ∈ l, C p = false := by
  induction l with
  | nil => intro cur; simp
  | cons p t ih =>
    intro cur
    rw [List.foldl_cons, ih]
    constructor
    · rintro ⟨h1, h2⟩
      unfold updIn at h1
      by_cases hC : C p
      · rw [if_pos hC] at h1; exact absurd h1 (hkeep cur p)
      · rw [if_neg hC] at h1
        refine ⟨h1, fun q hq => ?_⟩
        rcases List.mem_cons.mp hq with hq | hq
        · subst hq; exact Bool.eq_false_iff.mpr hC
        · exact h2 q hq
    · rintro ⟨h1, h2⟩
      have hCp : C p = false := h2 p (List.mem_cons_self p t)
      refine ⟨?_, fun q hq => h2 q (List.mem_cons_of_mem p hq)⟩
      unfold updIn
      rw [hCp]
      simpa using h1

theorem updIn_foldl_mem (C : DataPoint → Bool)
    (keep : Option DataPoint → DataPoint → Option DataPoint)
    (hkeep : ∀ cur p d, keep cur p = some d → d = p ∨ cur = some d)
    (l : List DataPoint) :
    ∀ (cur : Option DataPoint) (d : DataPoint),
      l.foldl (updIn C keep) cur = some d →
        cur = some d ∨ (C d = true ∧ d ∈ l) := by
  induction l with
  | nil => intro cur d h; exact Or.inl h
  | cons p t ih =>
    intro cur d h
    rw [List.foldl_cons] at h
    rcases ih (updIn C keep cur p) d h with h1 | h1
    · unfold updIn at h1
      by_cases hC : C p
      · rw [if_pos hC] at h1
        rcases hkeep cur p d h1 with rfl | h2
        · exact Or.inr ⟨hC, List.mem_cons_self d t⟩
        · exact Or.inl h2
      · rw [if_neg hC] at h1; exact Or.inl h1
    · exact Or.inr ⟨h1.1, List.mem_cons_of_mem p h1.2⟩

theorem foldl_scanStep (s e : ℤ) (l : List DataPoint) :
    ∀ st : BStat,
      l.foldl (scanStep s e) st =
        ⟨l.foldl (updIn (beforeStart s) keepLatest) st.dp0,
         l.foldl (updIn (insideBucket s e) keepEarliest) st.dp1,
         l.foldl (updIn (insideBucket s e) keepLatest) st.dp2,
         l.foldl (updIn (afterEnd s e) keepEarliest) st.dp3,
         l.foldl (fun c p => keepHighest c p.2) st.highest⟩ := by
  induction l with
  | nil => intro st; rfl
  | cons p t ih =>
    intro st
    rw [List.foldl_cons, ih]
    rfl

theorem scanPoints_dp0 (s e : ℤ) (l : List DataPoint) :
    (scanPoints s e l).dp0 = l.foldl (updIn (beforeStart s) keepLatest) none := by
  unfold scanPoints
  rw [foldl_scanStep]
  rfl

theorem scanPoints_dp1 (s e : ℤ) (l : List DataPoint) :
    (scanPoints s e l).dp1 = l.foldl (updIn (insideBucket s e) keepEarliest) none := by
  unfold scanPoints
  rw [foldl_scanStep]
  rfl

theorem scanPoints_dp2 (s e : ℤ) (l : List DataPoint) :
    (scanPoints s e l).dp2 = l.foldl (updIn (insideBucket s e) keepLatest) none := by
  unfold scanPoints
  rw [foldl_scanStep]
  rfl

theorem scanPoints_dp3 (s e : ℤ) (l : List DataPoint) :
    (scanPoints s e l).dp3 = l.foldl (updIn (afterEnd s e) keepEarliest) none := by
  unfold scanPoints
  rw [foldl_scanStep]
  rfl

theorem scanPoints_highest (s e : ℤ) (l : List DataPoint) :
    (scanPoints s e l).highest = l.foldl (fun c p => keepHighest c p.2) none := by
  unfold scanPoints
  rw [foldl_scanStep]
  rfl

theorem keepHighest_spec (cur : Option ℚ) (x : ℚ) :
    ∃ m, keepHighest cur x = some m ∧ x ≤ m ∧ (cur = some m ∨ x = m) ∧
      ∀ w, cur = some w → w ≤ m := by
  cases cur with
  | none => exact ⟨x, rfl, le_refl x, Or.inr rfl, by simp⟩
  | some h =>
    by_cases hx : x > h
    · refine ⟨x, ?_, le_refl x, Or.inr rfl, ?_⟩
      · simp [keepHighest, hx]
      · intro w hw
        exact (Option.some.inj hw) ▸ le_of_lt hx
    · refine ⟨h, ?_, not_lt.mp hx, Or.inl rfl, ?_⟩
      · simp [keepHighest, hx]
      · intro w hw
        rw [Option.some.inj hw]

theorem foldl_keepHighest_spec (l : List DataPoint) :
    ∀ (cur : Option ℚ) (v : ℚ),
      l.foldl (fun c p => keepHighest c p.2) cur = some v →
        (cur = some v ∨ ∃ p ∈ l, p.2 = v) ∧
        (∀ w, cur = some w → w ≤ v) ∧ ∀ p ∈ l, p.2 ≤ v := by
  induction l with
  | nil =>
    intro cur v h
    simp only [List.foldl_nil] at h
    subst h
    exact ⟨Or.inl rfl, fun w hw => by rw [Option.some.inj hw], by simp⟩
  | cons p t ih =>
    intro cur v h
    rw [List.foldl_cons] at h
    obtain ⟨m, hm, hxm, hcases, hup⟩ := keepHighest_spec cur p.2
    rw [hm] at h
    obtain ⟨hmem, hbound, hall⟩ := ih (some m) v h
    have hmv : m ≤ v := hbound m rfl
    refine ⟨?_, ?_, ?_⟩
    · rcases hmem with hmem | ⟨q, hq, rfl⟩
      · have hm2 : m = v := Option.some.inj hmem
        subst hm2
        rcases hcases with hc | hc
        · exact Or.inl hc
        · exact Or.inr ⟨p, List.mem_cons_self p t, hc⟩
      · exact Or.inr ⟨q, List.mem_cons_of_mem p hq, rfl⟩
    · intro w hw
      exact le_trans (hup w hw) hmv
    · intro q hq
      rcases List.mem_cons.mp hq with rfl | hq
      · exact le_trans hxm hmv
      · exact hall q hq

theorem updNewest_spec (now : ℤ) (cur : Option (ℤ × ℚ)) (p : DataPoint) :
    ∃ m, updNewest now cur p = some m ∧ m.1 ≤ now - p.1 ∧
      (cur = some m ∨ m = (now - p.1, p.2)) ∧
      ∀ w, cur = some w → m.1 ≤ w.1 := by
  cases cur with
  | none => exact ⟨(now - p.1, p.2), rfl, le_refl _, Or.inr rfl, by simp⟩
  | some d =>
    by_cases hx : now - p.1 < d.1
    · refine ⟨(now - p.1, p.2), ?_, le_refl _, Or.inr rfl, ?_⟩
      · simp [updNewest, hx]
      · intro w hw
        rw [← Option.some.inj hw]
        exact le_of_lt hx
    · refine ⟨d, ?_, not_lt.mp hx, Or.inl rfl, ?_⟩
      · simp [updNewest, hx]
      · intro w hw
        rw [← Option.some.inj hw]

theorem updOldest_spec (now : ℤ) (cur : Option (ℤ × ℚ)) (p : DataPoint) :
    ∃ m, updOldest now cur p = some m ∧ now - p.1 ≤ m.1 ∧
      (cur = some m ∨ m = (now - p.1, p.2)) ∧
      ∀ w, cur = some w → w.1 ≤ m.1 := by
  cases cur with
  | none => exact ⟨(now - p.1, p.2), rfl, le_refl _, Or.inr rfl, by simp⟩
  | some d =>
    by_cases hx : now - p.1 > d.1
    · refine ⟨(now - p.1, p.2), ?_, le_refl _, Or.inr rfl, ?_⟩
      · simp [updOldest, hx]
      · intro w hw
        rw [← Option.some.inj hw]
        exact le_of_lt hx
    · refine ⟨d, ?_, not_lt.mp hx, Or.inl rfl, ?_⟩
      · simp [updOldest, hx]
      · intro w hw
        rw [← Option.some.inj hw]

theorem foldl_updNewest_spec (now : ℤ) (l : List DataPoint) :
    ∀ (cur : Option (ℤ × ℚ)) (v : ℤ × ℚ),
      l.foldl (updNewest now) cur = some v →
        (cur = some v ∨ ∃ p ∈ l, v = (now - p.1, p.2)) ∧
        (∀ w, cur = some w → v.1 ≤ w.1) ∧ ∀ p ∈ l, v.1 ≤ now - p.1 := by
  induction l with
  | nil =>
    intro cur v h
    simp only [List.foldl_nil] at h
    subst h
    exact ⟨Or.inl rfl, fun w hw => by rw [Option.some.inj hw], by simp⟩
  | cons p t ih =>
    intro cur v h
    rw [List.foldl_cons] at h
    obtain ⟨m, hm, hage, hcases, hup⟩ := updNewest_spec now cur p
    rw [hm] at h
    obtain ⟨hmem, hbound, hall⟩ := ih (some m) v h
    have hmv : v.1 ≤ m.1 := hbound m rfl
    refine ⟨?_, ?_, ?_⟩
    · rcases hmem with hmem | ⟨q, hq, rfl⟩
      · have hm2 : m = v := Option.some.inj hmem
        subst hm2
        rcases hcases with hc | hc
        · exact Or.inl hc
        · exact Or.inr ⟨p, List.mem_cons_self p t, hc.symm ▸ rfl⟩
      · exact Or.inr ⟨q, List.mem_cons_of_mem p hq, rfl⟩
    · intro w hw
      exact le_trans hmv (hup w hw)
    · intro q hq
      rcases List.mem_cons.mp hq with rfl | hq
      · exact le_trans hmv hage
      · exact hall q hq

theorem foldl_updOldest_spec (now : ℤ) (l : List DataPoint) :
    ∀ (cur : Option (ℤ × ℚ)) (v : ℤ × ℚ),
      l.foldl (updOldest now) cur = some v →
        (cur = some v ∨ ∃ p ∈ l, v = (now - p.1, p.2)) ∧
        (∀ w, cur = some w → w.1 ≤ v.1) ∧ ∀ p ∈ l, now - p.1 ≤ v.1 := by
  induction l with
  | nil =>
    intro cur v h
    simp only [List.foldl_nil] at h
    subst h
    exact ⟨Or.inl rfl, fun w hw => by rw [Option.some.inj hw], by simp⟩
  | cons p t ih =>
    intro cur v h
    rw [List.foldl_cons] at h
    obtain ⟨m, hm, hage, hcases, hup⟩ := updOldest_spec now cur p
    rw [hm] at h
    obtain ⟨hmem, hbound, hall⟩ := ih (some m) v h
    have hmv : m.1 ≤ v.1 := hbound m rfl
    refine ⟨?_, ?_, ?_⟩
    · rcases hmem with hmem | ⟨q, hq, rfl⟩
      · have hm2 : m = v := Option.some.inj hmem
        subst hm2
        rcases hcases with hc | hc
        · exact Or.inl hc
        · exact Or.inr ⟨p, List.mem_cons_self p t, hc.symm ▸ rfl⟩
      · exact Or.inr ⟨q, List.mem_cons_of_mem p hq, rfl⟩
    · intro w hw
      exact le_trans (hup w hw) hmv
    · intro q hq
      rcases List.mem_cons.mp hq with rfl | hq
      · exact le_trans hage hmv
      · exact hall q hq

/-! Claim theorems. -/

/-- C4: for every pair of bracketing samples with after.value < before.value,
linear_fit returns exactly 0, regardless of the queried timestamp. -/
theorem interpolate_reset_returns_zero (dps dpe : DataPoint) (ts : ℤ)
    (h : dpe.2 < dps.2) : linear_fit dps dpe ts = 0 := by
  simp [linear_fit, h]

theorem interpolate_reset_returns_zero_witness :
    ((10, (3 : ℚ)) : DataPoint).2 < ((0, (5 : ℚ)) : DataPoint).2 ∧
      linear_fit (0, 5) (10, 3) 7 = 0 :=
  ⟨by norm_num, interpolate_reset_returns_zero (0, 5) (10, 3) 7 (by norm_num)⟩

/-- C9: for samples with after.value ≥ before.value and distinct timestamps,
linear_fit evaluated at before.timestamp returns exactly before.value and
evaluated at after.timestamp returns exactly after.value. -/
theorem interpolate_boundary_exact (t0 t1 : ℤ) (v0 v1 : ℚ)
    (hv : v0 ≤ v1) (ht : t0 ≠ t1) :
    linear_fit (t0, v0) (t1, v1) t0 = v0 ∧ linear_fit (t0, v0) (t1, v1) t1 = v1 := by
  have hlt : ¬ v1 < v0 := not_lt.mpr hv
  have hne : ((t1 : ℚ)) - ((t0 : ℚ)) ≠ 0 :=
    sub_ne_zero.mpr (by exact_mod_cast ht.symm)
  constructor
  · simp [linear_fit, hlt]
  · simp only [linear_fit, hlt, if_false]
    rw [div_mul_cancel₀ _ hne]
    ring

theorem interpolate_boundary_exact_witness :
    (2 : ℚ) ≤ 7 ∧ (0 : ℤ) ≠ 10 ∧
      linear_fit (0, 2) (10, 7) 0 = 2 ∧ linear_fit (0, 2) (10, 7) 10 = 7 :=
  ⟨by norm_num, by decide,
    (interpolate_boundary_exact 0 10 2 7 (by norm_num) (by decide)).1,
    (interpolate_boundary_exact 0 10 2 7 (by norm_num) (by decide)).2⟩

/-- C2 as stated is false: with bucket size 60, which = 0 and now = 60, the
bucket resolved by get_bucket ends at 59, one second before the rounded-down
boundary (now - now % bs) - which * bs = 60 claimed by the spec. -/
theorem bucket_end_counterexample :
    bucketEnd 60 0 60 = 59 ∧ ((60 : ℤ) - 60 % 60) - 0 * 60 = 60 ∧ (59 : ℤ) ≠ 60 := by
  refine ⟨by decide, by decide, by decide⟩

/-- C2 amended: for every bucket size, buckets-ago count and current time,
the bucket is the span [end - bs + 1, end] where
end = (now rounded down to a multiple of bs) - which * bs - 1, i.e. it stops
one second before the shifted rounded-down boundary. -/
theorem bucket_span (bs which now : ℤ) :
    bucketEnd bs which now = ((now - now % bs) - which * bs) - 1 ∧
    bucketStart bs which now = bucketEnd bs which now - bs + 1 := by
  unfold bucketEnd bucketStart
  constructor <;> ring

/-- C8: the bucket comparison computes
percentChange = ((bucketNow / bucketOld) - 1) * 100 and fails with
DivisionUndefined exactly when the older bucket value is 0; bucket_check
propagates that failure. -/
theorem compareBuckets_division_undefined (bNow bOld warn crit : ℚ)
    (cmp : Cmpr) (useAbs : Bool) :
    bucketPercentChange bNow bOld =
      (if bOld = 0 then .error .DivisionUndefined
       else .ok ((bNow / bOld - 1) * 100)) ∧
    bucket_check cmp warn crit useAbs bNow 0 = .error .DivisionUndefined := by
  refine ⟨rfl, ?_⟩
  simp [bucket_check, bucketPercentChange, Bind.bind, Except.bind]

/-- C6: get_bucket fails with InsufficientData whenever one of the required
bracket samples is absent: no sample strictly before the bucket start, no
interior sample at-or-after start and at-or-before end (which empties both
interior slots), or no sample strictly after the bucket end — for every
input sequence and every bucket window. -/
theorem resolveBucket_insufficient (rate : Bool) (bs which now : ℤ)
    (dps : List DataPoint)
    (h : (∀ p ∈ dps, ¬ p.1 < bucketStart bs which now) ∨
         (∀ p ∈ dps, ¬ (bucketStart bs which now ≤ p.1 ∧ p.1 ≤ bucketEnd bs which now)) ∨
         (∀ p ∈ dps, ¬ bucketEnd bs which now < p.1)) :
    get_bucket rate bs which now dps = .error .InsufficientData := by
  have hnone :
      (scanPoints (bucketStart bs which now) (bucketEnd bs which now) dps).dp0 = none ∨
      (scanPoints (bucketStart bs which now) (bucketEnd bs which now) dps).dp1 = none ∨
      (scanPoints (bucketStart bs which now) (bucketEnd bs which now) dps).dp3 = none := by
    rcases h with h | h | h
    · left
      rw [scanPoints_dp0, updIn_foldl_none _ _ keepLatest_ne_none]
      exact ⟨rfl, fun p hp => by simp [beforeStart, h p hp]⟩
    · right; left
      rw [scanPoints_dp1, updIn_foldl_none _ _ keepEarliest_ne_none]
      refine ⟨rfl, fun p hp => ?_⟩
      have h2 := h p hp
      simp only [insideBucket, decide_eq_false_iff_not]
      omega
    · right; right
      rw [scanPoints_dp3, updIn_foldl_none _ _ keepEarliest_ne_none]
      refine ⟨rfl, fun p hp => ?_⟩
      have h2 := h p hp
      simp only [afterEnd, decide_eq_false_iff_not]
      omega
  rcases hc0 : (scanPoints (bucketStart bs which now) (bucketEnd bs which now) dps).dp0 with _ | d0 <;>
    rcases hc1 : (scanPoints (bucketStart bs which now) (bucketEnd bs which now) dps).dp1 with _ | d1 <;>
    rcases hc2 : (scanPoints (bucketStart bs which now) (bucketEnd bs which now) dps).dp2 with _ | d2 <;>
    rcases hc3 : (scanPoints (bucketStart bs which now) (bucketEnd bs which now) dps).dp3 with _ | d3 <;>
    simp_all [get_bucket]

theorem resolveBucket_insufficient_witness :
    (∀ p ∈ ([] : List DataPoint), ¬ p.1 < bucketStart 60 1 200) ∧
    get_bucket true 60 1 200 [] = .error .InsufficientData :=
  ⟨by simp, resolveBucket_insufficient true 60 1 200 [] (Or.inl (by simp))⟩

/-- C10: whenever the scan of get_bucket finds all four bracket samples, the
left bracket lies strictly before the first interior sample and the last
interior sample strictly before the right bracket, so the timestamp spans
handed to linear_fit are nonzero and its divisions are well defined. -/
theorem bracket_timestamps_separated (bs which now : ℤ) (dps : List DataPoint)
    (d0 d1 d2 d3 : DataPoint)
    (h0 : (scanPoints (bucketStart bs which now) (bucketEnd bs which now) dps).dp0 = some d0)
    (h1 : (scanPoints (bucketStart bs which now) (bucketEnd bs which now) dps).dp1 = some d1)
    (h2 : (scanPoints (bucketStart bs which now) (bucketEnd bs which now) dps).dp2 = some d2)
    (h3 : (scanPoints (bucketStart bs which now) (bucketEnd bs which now) dps).dp3 = some d3) :
    d0.1 < d1.1 ∧ d2.1 < d3.1 ∧
      ((d1.1 : ℚ)) - ((d0.1 : ℚ)) ≠ 0 ∧ ((d3.1 : ℚ)) - ((d2.1 : ℚ)) ≠ 0 := by
  rw [scanPoints_dp0] at h0
  rw [scanPoints_dp1] at h1
  rw [scanPoints_dp2] at h2
  rw [scanPoints_dp3] at h3
  have c0 := updIn_foldl_mem _ _ keepLatest_cases dps none d0 h0
  have c1 := updIn_foldl_mem _ _ keepEarliest_cases dps none d1 h1
  have c2 := updIn_foldl_mem _ _ keepLatest_cases dps none d2 h2
  have c3 := updIn_foldl_mem _ _ keepEarliest_cases dps none d3 h3
  rcases c0 with hb | ⟨hb0, _⟩; · exact absurd hb (by simp)
  rcases c1 with hb | ⟨hb1, _⟩; · exact absurd hb (by simp)
  rcases c2 with hb | ⟨hb2, _⟩; · exact absurd hb (by simp)
  rcases c3 with hb | ⟨hb3, _⟩; · exact absurd hb (by simp)
  rw [beforeStart, decide_eq_true_iff] at hb0
  rw [insideBucket, decide_eq_true_iff] at hb1
  rw [insideBucket, decide_eq_true_iff] at hb2
  rw [afterEnd, decide_eq_true_iff] at hb3
  have h01 : d0.1 < d1.1 := by omega
  have h23 : d2.1 < d3.1 := by omega
  have q1 : ((d1.1 : ℚ)) ≠ ((d0.1 : ℚ)) := by exact_mod_cast ne_of_gt h01
  have q2 : ((d3.1 : ℚ)) ≠ ((d2.1 : ℚ)) := by exact_mod_cast ne_of_gt h23
  exact ⟨h01, h23, sub_ne_zero.mpr q1, sub_ne_zero.mpr q2⟩

theorem bracket_timestamps_separated_witness :
    (scanPoints (bucketStart 60 0 125) (bucketEnd 60 0 125)
        [(50, 1), (70, 2), (100, 3), (130, 4)]).dp0 = some (50, 1) ∧
    ((50 : ℤ), (1 : ℚ)).1 < ((70 : ℤ), (2 : ℚ)).1 ∧
      ((100 : ℤ), (3 : ℚ)).1 < ((130 : ℤ), (4 : ℚ)).1 := by
  have h := bracket_timestamps_separated 60 0 125 [(50, 1), (70, 2), (100, 3), (130, 4)]
      (50, 1) (70, 2) (100, 3) (130, 4) (by decide) (by decide) (by decide) (by decide)
  exact ⟨by decide, h.1, h.2.1⟩

/-- C5: for every resolved bucket, the rate value is
endValue - startValue when no reset occurred (endValue ≥ startValue) and
(maxValueSeen - startValue) + endValue when endValue < startValue, where
maxValueSeen is the maximum value over all supplied samples; a non-rate
bucket request fails with UnsupportedMode instead of returning a number. -/
theorem bucket_rate_value (bs which now : ℤ) (dps : List DataPoint)
    (d0 d1 d2 d3 : DataPoint) (hv : ℚ)
    (h0 : (scanPoints (bucketStart bs which now) (bucketEnd bs which now) dps).dp0 = some d0)
    (h1 : (scanPoints (bucketStart bs which now) (bucketEnd bs which now) dps).dp1 = some d1)
    (h2 : (scanPoints (bucketStart bs which now) (bucketEnd bs which now) dps).dp2 = some d2)
    (h3 : (scanPoints (bucketStart bs which now) (bucketEnd bs which now) dps).dp3 = some d3)
    (hh : (scanPoints (bucketStart bs which now) (bucketEnd bs which now) dps).highest = some hv) :
    ((∃ p ∈ dps, p.2 = hv) ∧ ∀ p ∈ dps, p.2 ≤ hv) ∧
    (linear_fit d0 d1 (bucketStart bs which now) ≤ linear_fit d2 d3 (bucketEnd bs which now) →
      get_bucket true bs which now dps =
        .ok (linear_fit d2 d3 (bucketEnd bs which now) -
             linear_fit d0 d1 (bucketStart bs which now))) ∧
    (linear_fit d2 d3 (bucketEnd bs which now) < linear_fit d0 d1 (bucketStart bs which now) →
      get_bucket true bs which now dps =
        .ok ((hv - linear_fit d0 d1 (bucketStart bs which now)) +
             linear_fit d2 d3 (bucketEnd bs which now))) ∧
    get_bucket false bs which now dps = .error .UnsupportedMode := by
  have hmax := foldl_keepHighest_spec dps none hv (by rw [← scanPoints_highest]; exact hh)
  refine ⟨?_, ?_, ?_, ?_⟩
  · rcases hmax.1 with hb | hb
    · exact absurd hb (by simp)
    · exact ⟨hb, hmax.2.2⟩
  · intro hle
    simp only [get_bucket, h0, h1, h2, h3, hh]
    simp [not_lt.mpr hle]
  · intro hlt
    simp only [get_bucket, h0, h1, h2, h3, hh]
    simp [hlt]
  · simp only [get_bucket, h0, h1, h2, h3, hh]
    simp

theorem bucket_rate_value_witness :
    (scanPoints (bucketStart 60 0 125) (bucketEnd 60 0 125)
        [(50, 1), (70, 2), (100, 3), (130, 4)]).highest = some 4 ∧
    get_bucket false 60 0 125 [(50, 1), (70, 2), (100, 3), (130, 4)] =
      .error .UnsupportedMode := by
  have h := bucket_rate_value 60 0 125 [(50, 1), (70, 2), (100, 3), (130, 4)]
      (50, 1) (70, 2) (100, 3) (130, 4) 4
      (by decide) (by decide) (by decide) (by decide) (by decide)
  exact ⟨by decide, h.2.2.2⟩

/-- C7: a sample of age now - timestamp is excluded from evaluation exactly
when age > duration or age ≤ ignoreRecent, and when zero samples survive the
filter the verdict is OK when the no-result-ok flag is set and CRITICAL
otherwise. -/
theorem recent_filter_and_nodata (o : RecentOpts) (deltaMode : Bool) (now : ℤ)
    (dps : List DataPoint) (p : DataPoint) :
    (keepSample now o.duration o.ignoreRecent p = false ↔
      now - p.1 > o.duration ∨ now - p.1 ≤ o.ignoreRecent) ∧
    (dps.filter (keepSample now o.duration o.ignoreRecent) = [] →
      recent_check o deltaMode now dps =
        if o.noResultOk then Verdict.ok else Verdict.critical) := by
  constructor
  · unfold keepSample
    by_cases h1 : now - p.1 > o.duration <;> by_cases h2 : now - p.1 ≤ o.ignoreRecent <;>
      simp [h1, h2]
  · intro h
    simp [recent_check, h, noData]

theorem recent_filter_and_nodata_witness :
    (keepSample 1000 10 0 ((0 : ℤ), (5 : ℚ)) = false ↔
      (1000 : ℤ) - ((0 : ℤ), (5 : ℚ)).1 > 10 ∨
        (1000 : ℤ) - ((0 : ℤ), (5 : ℚ)).1 ≤ 0) ∧
    recent_check ⟨10, 0, 0, 5, 10, Cmpr.gt, false⟩ false 1000 [(0, 5)] =
      Verdict.critical := by
  have h := recent_filter_and_nodata ⟨10, 0, 0, 5, 10, Cmpr.gt, false⟩ false 1000
      [(0, 5)] (0, 5)
  exact ⟨h.1, h.2 (by decide)⟩

/-- C1: in non-delta mode, for a surviving sample set of at least one sample
with nCrit the count of samples satisfying the comparator against the
critical threshold and nWarn the count of warning-only samples plus nCrit,
the verdict is CRITICAL iff nCrit > 0 and nCrit / nTotal > percentOver,
otherwise WARNING iff nWarn > 0 and nWarn / nTotal > percentOver, otherwise
OK; both proportion tests are strict, so percentOver = 0 alerts on a single
critical sample. -/
theorem recent_verdict_percent_over (o : RecentOpts) (now : ℤ)
    (dps surv : List DataPoint) (nCrit nWarn : ℕ)
    (hs : surv = dps.filter (keepSample now o.duration o.ignoreRecent))
    (hn : 1 ≤ surv.length)
    (hc : nCrit = (surv.filter (fun p => o.cmp.apply p.2 o.critical)).length)
    (hw : nWarn = (surv.filter
        (fun p => !(o.cmp.apply p.2 o.critical) && o.cmp.apply p.2 o.warning)).length
      + nCrit) :
    (recent_check o false now dps = Verdict.critical ↔
      0 < nCrit ∧ o.percentOver < (nCrit : ℚ) / (surv.length : ℚ)) ∧
    (recent_check o false now dps = Verdict.warning ↔
      ¬ (0 < nCrit ∧ o.percentOver < (nCrit : ℚ) / (surv.length : ℚ)) ∧
      (0 < nWarn ∧ o.percentOver < (nWarn : ℚ) / (surv.length : ℚ))) ∧
    (recent_check o false now dps = Verdict.ok ↔
      ¬ (0 < nCrit ∧ o.percentOver < (nCrit : ℚ) / (surv.length : ℚ)) ∧
      ¬ (0 < nWarn ∧ o.percentOver < (nWarn : ℚ) / (surv.length : ℚ))) ∧
    (o.percentOver = 0 → 0 < nCrit → recent_check o false now dps = Verdict.critical) := by
  subst hs
  subst hc
  subst hw
  have hnz : ¬ (dps.filter (keepSample now o.duration o.ignoreRecent)).length = 0 := by
    omega
  have hlen : (0 : ℚ) <
      ((dps.filter (keepSample now o.duration o.ignoreRecent)).length : ℚ) := by
    exact_mod_cast Nat.lt_of_lt_of_le Nat.zero_lt_one hn
  simp only [recent_check, hnz, if_false, Bool.false_eq_true]
  split_ifs with h1 h2
  · exact ⟨iff_of_true rfl h1,
      iff_of_false (by simp) (fun hcon => hcon.1 h1),
      iff_of_false (by simp) (fun hcon => hcon.1 h1),
      fun hp hcr => rfl⟩
  · refine ⟨iff_of_false (by simp) h1,
      iff_of_true rfl ⟨h1, h2⟩,
      iff_of_false (by simp) (fun hcon => hcon.2 h2),
      fun hp hcr => absurd ⟨hcr, ?_⟩ h1⟩
    rw [hp]
    exact div_pos (by exact_mod_cast hcr) hlen
  · refine ⟨iff_of_false (by simp) h1,
      iff_of_false (by simp) (fun hcon => h2 hcon.2),
      iff_of_true rfl ⟨h1, h2⟩,
      fun hp hcr => absurd ⟨hcr, ?_⟩ h1⟩
    rw [hp]
    exact div_pos (by exact_mod_cast hcr) hlen

theorem recent_verdict_percent_over_witness :
    1 ≤ ([((90 : ℤ), (12 : ℚ))] : List DataPoint).length ∧
    recent_check ⟨600, 0, 0, 5, 10, Cmpr.gt, false⟩ false 100 [(90, 12)] =
      Verdict.critical := by
  have h := recent_verdict_percent_over ⟨600, 0, 0, 5, 10, Cmpr.gt, false⟩ 100
      [(90, 12)] [(90, 12)] 1 1 (by decide) (by decide) (by decide) (by decide)
  exact ⟨by decide, h.2.2.2 rfl (by decide)⟩

/-- C3 as stated is false at its own example: with duration 200,
ignoreRecent 0 and now 200, the sample (200, 25) has age 0 ≤ ignoreRecent
and is filtered out, so the delta is 0, not 15, and the verdict for
gt-thresholds 5/10 is OK. -/
theorem delta_example_counterexample :
    delta_value ⟨200, 0, 0, 5, 10, Cmpr.gt, false⟩ 200
        [(0, 10), (100, 10), (200, 25)] = some 0 ∧
    ((0 : ℚ)) ≠ 15 ∧
    recent_check ⟨200, 0, 0, 5, 10, Cmpr.gt, false⟩ true 200
        [(0, 10), (100, 10), (200, 25)] = Verdict.ok := by
  refine ⟨?_, by norm_num, ?_⟩
  · norm_num [delta_value, keepSample, updNewest, updOldest, List.filter, List.foldl]
  · norm_num [recent_check, keepSample, updNewest, updOldest, Cmpr.apply,
      List.filter, List.foldl]

/-- C3 amended: in delta mode, for every surviving sample set with at least
one sample, the evaluator reports delta = newest.value - oldest.value where
newest is the surviving sample of minimum age and oldest the one of maximum
age, classified against the critical threshold first, then warning, else OK,
with no sign-suppression or reset handling; in the spec example the t = 200
sample has age 0 ≤ ignoreRecent = 0 and is filtered out, so the delta there
is 0 (newest = (age 100, 10), oldest = (age 200, 10)), not 15. -/
theorem delta_mode_verdict (o : RecentOpts) (now : ℤ)
    (dps surv : List DataPoint) (nw od : ℤ × ℚ)
    (hs : surv = dps.filter (keepSample now o.duration o.ignoreRecent))
    (hnw : surv.foldl (updNewest now) none = some nw)
    (hod : surv.foldl (updOldest now) none = some od) :
    (∃ p ∈ surv, nw = (now - p.1, p.2)) ∧ (∀ p ∈ surv, nw.1 ≤ now - p.1) ∧
    (∃ p ∈ surv, od = (now - p.1, p.2)) ∧ (∀ p ∈ surv, now - p.1 ≤ od.1) ∧
    delta_value o now dps = some (nw.2 - od.2) ∧
    recent_check o true now dps =
      (if o.cmp.apply (nw.2 - od.2) o.critical then Verdict.critical
       else if o.cmp.apply (nw.2 - od.2) o.warning then Verdict.warning
       else Verdict.ok) ∧
    delta_value ⟨200, 0, 0, 5, 10, Cmpr.gt, false⟩ 200
        [(0, 10), (100, 10), (200, 25)] = some 0 := by
  subst hs
  obtain ⟨hmem, hmin, hall⟩ :=
    foldl_updNewest_spec now (dps.filter (keepSample now o.duration o.ignoreRecent))
      none nw hnw
  obtain ⟨hmem2, hmax, hall2⟩ :=
    foldl_updOldest_spec now (dps.filter (keepSample now o.duration o.ignoreRecent))
      none od hod
  rcases hmem with hb | hmem
  · exact absurd hb (by simp)
  rcases hmem2 with hb | hmem2
  · exact absurd hb (by simp)
  have hlen : ¬ (dps.filter (keepSample now o.duration o.ignoreRecent)).length = 0 := by
    intro hz
    rw [List.length_eq_zero] at hz
    rw [hz] at hnw
    simp at hnw
  refine ⟨hmem, hall, hmem2, hall2, ?_, ?_, ?_⟩
  · simp [delta_value, hnw, hod]
  · simp [recent_check, hlen, hnw, hod]
  · norm_num [delta_value, keepSample, updNewest, updOldest, List.filter, List.foldl]

theorem delta_mode_verdict_witness :
    ([(0, 10), (100, 10)] : List DataPoint) =
      ([(0, 10), (100, 10), (200, 25)] : List DataPoint).filter (keepSample 200 200 0) ∧
    recent_check ⟨200, 0, 0, 5, 10, Cmpr.gt, false⟩ true 200
        [(0, 10), (100, 10), (200, 25)] = Verdict.ok := by
  have h := delta_mode_verdict ⟨200, 0, 0, 5, 10, Cmpr.gt, false⟩ 200
      [(0, 10), (100, 10), (200, 25)] [(0, 10), (100, 10)]
      (100, 10) (200, 10) (by decide) (by decide) (by decide)
  refine ⟨by decide, ?_⟩
  rw [h.2.2.2.2.2.1]
  norm_num [Cmpr.apply]

end CheckTsd
